import Mathlib

/-!
Verification development for the `ontology` knowledge-graph store
(`src/ontology/knowledge_graph.py`, data model in `src/ontology/models.py`).

The store keeps an insertion-ordered mapping from entity name to `Entity`
(a Python `dict`) and an ordered list of `Relation`.  Mutating operations
return a human-readable status string and, when they complete successfully,
rewrite the whole backing file (`_save_graph`); early validation returns
skip the save.  The file is newline-delimited JSON, one record per line,
reloaded by `initialize_graph_from_data`.

Embedding choices, documented once here:

* A Python `dict[str, Entity]` is an association list in insertion order;
  assigning to an existing key overwrites the value in place (position
  kept), assigning a fresh key appends.  `json.loads` of a JSON object
  yields such a dict with unique keys (later duplicate keys win during
  parsing, so the parsed dict itself has no duplicates).
* A line of the persisted file is a `Line`: blank after stripping,
  invalid JSON (`json.JSONDecodeError` on `json.loads`), or a parsed JSON
  value `Json`.  `json.dump` escapes newlines inside strings, so each
  saved record occupies exactly one line and the split on "\n" recovers
  the records; `_save_graph` is therefore modelled as producing the list
  of its record lines.
* Python's `str.lower` is modelled by `Char.toLower` on each character
  (the ASCII case mapping, which is what every string in the spec's
  scenarios exercises), and the string membership test `a in b` by
  substring containment of the character lists.
* Exceptions are explicit: `PyErr.keyError` models `KeyError` (caught per
  line during load), `PyErr.typeError` models `TypeError` (uncaught,
  aborts the load).  `PyErr.unmodeled` marks dynamically-typed states the
  typed embedding does not represent: the dataclasses in `models.py` type
  every field as `str` (observations as `list[str]`), and a loaded record
  carrying a non-string where the data model requires a string leaves the
  typed state space; no claim concerns such records.
-/

namespace Ontology

/-- Python `str.lower()` restricted to the per-character ASCII mapping. -/
def lowerStr (s : String) : String :=
  String.mk (s.data.map Char.toLower)

/-- Substring test on character lists: `infixOfB n h` is true iff `n`
occurs contiguously inside `h`. -/
def infixOfB (n : List Char) : List Char → Bool
  | [] => n.isEmpty
  | c :: t => n.isPrefixOf (c :: t) || infixOfB n t

/-- Python's `needle in hay` on strings: substring containment. -/
def pyIn (needle hay : String) : Bool :=
  infixOfB needle.data hay.data

/-- `Entity` dataclass of `models.py`: name, entity_type, observations. -/
structure Entity where
  name : String
  entity_type : String
  observations : List String
  deriving DecidableEq, Repr

/-- `Relation` dataclass of `models.py`: from_entity, to_entity, relation_type. -/
structure Relation where
  from_entity : String
  to_entity : String
  relation_type : String
  deriving DecidableEq, Repr

/-- The `self.entities` dict: insertion-ordered association list. -/
abbrev EntityDict := List (String × Entity)

/-- Python `k in d` on a dict. -/
def dictContains (d : EntityDict) (k : String) : Bool :=
  d.any (fun p => p.1 == k)

/-- Python `d[k] = v`: overwrite in place if the key is present (its
position is kept), append otherwise. -/
def dictInsert (d : EntityDict) (k : String) (v : Entity) : EntityDict :=
  if dictContains d k then d.map (fun p => if p.1 == k then (k, v) else p)
  else d ++ [(k, v)]

/-- Python `d[k]` as an option (`None` for a missing key). -/
def dictGet? (d : EntityDict) (k : String) : Option Entity :=
  (d.find? (fun p => p.1 == k)).map (fun p => p.2)

/-- Python `del d[k]`. -/
def dictDelete (d : EntityDict) (k : String) : EntityDict :=
  d.filter (fun p => !(p.1 == k))

/-- Mutating the entity object stored under key `k` in place
(`entity.observations = ...` on the object held by the dict). -/
def dictUpdate (d : EntityDict) (k : String) (f : Entity → Entity) : EntityDict :=
  d.map (fun p => if p.1 == k then (p.1, f p.2) else p)

/-- How many entries of the dict carry key `k` (1 for a real dict when
present; kept explicit because the embedding is an association list). -/
def countKey (d : EntityDict) (k : String) : Nat :=
  (d.filter (fun p => p.1 == k)).length

/-- In-memory state of `KnowledgeGraph`: `self.entities`, `self.relations`. -/
structure Store where
  entities : EntityDict
  relations : List Relation
  deriving DecidableEq, Repr

def emptyStore : Store := ⟨[], []⟩

/-- A parsed JSON value as `json.loads` returns it.  `obj` fields model
the resulting Python dict: unique keys, in order. -/
inductive Json where
  | obj (fields : List (String × Json))
  | str (s : String)
  | arr (elems : List Json)
  | num (n : Int)
  | bool (b : Bool)
  | null

/-- One line of the persisted file after stripping: blank, not valid JSON
(`json.loads` raises `JSONDecodeError`), or a parsed JSON value. -/
inductive Line where
  | blank
  | invalid
  | json (j : Json)

/-- The Python exceptions the load path can raise.  `unmodeled` flags a
record whose field values leave the typed data model (see the header). -/
inductive PyErr where
  | typeError
  | keyError
  | unmodeled
  deriving DecidableEq, Repr

/-- Python `k in fields` for the dict behind a JSON object. -/
def objHasKey (fs : List (String × Json)) (k : String) : Bool :=
  fs.any (fun p => p.1 == k)

/-- Python `fields[k]` as an option. -/
def objGet? (fs : List (String × Json)) (k : String) : Option Json :=
  (fs.find? (fun p => p.1 == k)).map (fun p => p.2)

/-- Python `elem == k` for a JSON array element against the string `k`:
only a string element can compare equal. -/
def jsonEqStr (j : Json) (k : String) : Bool :=
  match j with
  | .str s => s == k
  | _ => false

/-- Python `k in data` on an arbitrary parsed JSON value: key test on a
dict, substring test on a string, element test on a list, and `TypeError`
("argument of type ... is not iterable") on a number, boolean or `None`. -/
def pyContains (j : Json) (k : String) : Except PyErr Bool :=
  match j with
  | .obj fs => .ok (objHasKey fs k)
  | .str s => .ok (pyIn k s)
  | .arr es => .ok (es.any (fun e => jsonEqStr e k))
  | _ => .error .typeError

/-- `data[k]` expected to be a string: `KeyError` when the key is absent;
a non-string value leaves the typed data model (`unmodeled`). -/
def getStrField (fs : List (String × Json)) (k : String) : Except PyErr String :=
  match objGet? fs k with
  | none => .error .keyError
  | some (.str s) => .ok s
  | some _ => .error .unmodeled

def asStr? (j : Json) : Option String :=
  match j with
  | .str s => some s
  | _ => none

/-- `data["observations"]` expected to be a list of strings. -/
def getObsField (fs : List (String × Json)) : Except PyErr (List String) :=
  match objGet? fs "observations" with
  | none => .error .keyError
  | some (.arr es) =>
      match es.mapM asStr? with
      | some l => .ok l
      | none => .error .unmodeled
  | some _ => .error .unmodeled

/-- What one successfully interpreted line contributes to the graph. -/
inductive Parsed where
  | ent (e : Entity)
  | rel (r : Relation)

/-- The per-line body of `initialize_graph_from_data`, lines 107-127:
`"name" in data` selects an entity record (defaulting a missing
`observations` to `[]` before reading the fields), otherwise
`"from_entity" in data` selects a relation record, otherwise the line is
silently ignored.  A membership test on a non-iterable raises `TypeError`;
on a string or list that passes the membership test, the subsequent item
assignment `data["observations"] = []` or string-keyed subscript
`data["name"]` raises `TypeError` as well, so every non-object value that
enters a branch ends in `TypeError`.  A missing field inside `Entity(...)`
or `Relation(...)` raises `KeyError` before any state is touched (the
constructor arguments are evaluated left to right: `name`, `entity_type`,
`observations`; `from_entity`, `to_entity`, `relation_type`). -/
def parseLine (j : Json) : Except PyErr (Option Parsed) := do
  let hasName ← pyContains j "name"
  if hasName then
    match j with
    | .obj fs =>
        let fs2 := if objHasKey fs "observations" then fs
          else fs ++ [("observations", Json.arr [])]
        let n ← getStrField fs2 "name"
        let t ← getStrField fs2 "entity_type"
        let obs ← getObsField fs2
        pure (some (.ent ⟨n, t, obs⟩))
    | _ => .error .typeError
  else
    let hasFrom ← pyContains j "from_entity"
    if hasFrom then
      match j with
      | .obj fs =>
          let f ← getStrField fs "from_entity"
          let t ← getStrField fs "to_entity"
          let rt ← getStrField fs "relation_type"
          pure (some (.rel ⟨f, t, rt⟩))
      | _ => .error .typeError
    else
      pure none

/-- `self.entities[data["name"]] = Entity(...)` (the key equals the
entity's `name` field) or `self.relations.append(Relation(...))`. -/
def applyParsed (st : Store) : Parsed → Store
  | .ent e => { st with entities := dictInsert st.entities e.name e }
  | .rel r => { st with relations := st.relations ++ [r] }

/-- `initialize_graph_from_data`, lines 97-135: process the lines in
order; blank lines are skipped, `JSONDecodeError` and `KeyError` are
caught and the line skipped with a logged warning, any other exception
(in particular `TypeError`) propagates and aborts the whole load. -/
def initialize_graph_from_data (st : Store) : List Line → Except PyErr Store
  | [] => .ok st
  | .blank :: rest => initialize_graph_from_data st rest
  | .invalid :: rest => initialize_graph_from_data st rest
  | .json j :: rest =>
      match parseLine j with
      | .ok none => initialize_graph_from_data st rest
      | .ok (some p) => initialize_graph_from_data (applyParsed st p) rest
      | .error .keyError => initialize_graph_from_data st rest
      | .error e => .error e

/-- The JSON line `json.dump({"name": ..., "entity_type": ...,
"observations": ...})` writes for an entity. -/
def entLineOf (e : Entity) : Line :=
  Line.json (Json.obj
    [("name", Json.str e.name),
     ("entity_type", Json.str e.entity_type),
     ("observations", Json.arr (e.observations.map Json.str))])

/-- The JSON line `json.dump({"from_entity": ..., "to_entity": ...,
"relation_type": ...})` writes for a relation. -/
def relLineOf (r : Relation) : Line :=
  Line.json (Json.obj
    [("from_entity", Json.str r.from_entity),
     ("to_entity", Json.str r.to_entity),
     ("relation_type", Json.str r.relation_type)])

/-- `_save_graph`, lines 137-170: write one JSON object line per entity
(dict iteration order), then one per relation (list order). -/
def _save_graph (st : Store) : List Line :=
  st.entities.map (fun p => entLineOf p.2) ++ st.relations.map relLineOf

/-- The graph together with its backing file: mutating operations rewrite
`file` with `_save_graph` exactly when they reach their final save. -/
structure Sys where
  store : Store
  file : List Line

/-- One element of the `create_entities` input list: a dict with `name`
and `entity_type`, and an optional `observations` key
(`entity_data.get("observations", [])`). -/
structure EntityInput where
  name : String
  entity_type : String
  observations : Option (List String)
  deriving DecidableEq, Repr

/-- One element of the `create_relations` / `delete_relations` input list. -/
structure RelationInput where
  from_entity : String
  to_entity : String
  relation_type : String
  deriving DecidableEq, Repr

/-- One element of the `delete_observations` input list. -/
structure ObsDeletion where
  entity_name : String
  observation : String
  deriving DecidableEq, Repr

/-- `Entity(name=..., entity_type=..., observations=entity_data.get("observations", []))`. -/
def entityOfInput (e : EntityInput) : Entity :=
  ⟨e.name, e.entity_type, e.observations.getD []⟩

/-- `self.entities[entity_data["name"]] = Entity(...)` for one input. -/
def insertInput (d : EntityDict) (e : EntityInput) : EntityDict :=
  dictInsert d e.name (entityOfInput e)

/-- `create_entities`, lines 172-195: first pass returns on the first
input whose name already exists; otherwise a second pass inserts every
input, then saves. -/
def create_entities (sys : Sys) (entities : List EntityInput) : Sys × String :=
  match entities.find? (fun e => dictContains sys.store.entities e.name) with
  | some e => (sys, "Entity already exists: " ++ e.name)
  | none =>
      let st := { sys.store with entities := entities.foldl insertInput sys.store.entities }
      ({ store := st, file := _save_graph st }, "Successfully created entities")

/-- The exact string built by the triple-quoted f-string of lines
208-210: the text is spread over three lines, the second and third
indented by 24 spaces. -/
def relNotFoundMsg (f t : String) : String :=
  "One or both entities not found:\n                        " ++ f
    ++ ",\n                        " ++ t

/-- The single loop of `create_relations`, lines 206-218: each input is
checked against the current entity set and, when both endpoints exist,
appended immediately; the first invalid input returns the error with the
relations appended so far kept in memory. -/
def create_relations_loop (st : Store) : List RelationInput → Store × Option String
  | [] => (st, none)
  | r :: rest =>
      if !(dictContains st.entities r.from_entity) || !(dictContains st.entities r.to_entity) then
        (st, some (relNotFoundMsg r.from_entity r.to_entity))
      else
        create_relations_loop
          { st with relations := st.relations ++ [⟨r.from_entity, r.to_entity, r.relation_type⟩] }
          rest

/-- `create_relations`, lines 197-221: the early error return skips
`_save_graph`, so the file is only rewritten on full success. -/
def create_relations (sys : Sys) (relations : List RelationInput) : Sys × String :=
  match create_relations_loop sys.store relations with
  | (st, none) => ({ store := st, file := _save_graph st }, "Successfully created relations")
  | (st, some msg) => ({ sys with store := st }, msg)

/-- The loop of `delete_entities`, lines 255-259: for each existing name,
remove the entity and every relation in which the name occurs as either
endpoint (`name not in (r.from_entity, r.to_entity)`); unknown names are
skipped. -/
def delete_entities_loop (st : Store) : List String → Store
  | [] => st
  | n :: rest =>
      if dictContains st.entities n then
        delete_entities_loop
          { entities := dictDelete st.entities n,
            relations := st.relations.filter
              (fun r => !(n == r.from_entity || n == r.to_entity)) }
          rest
      else
        delete_entities_loop st rest

/-- `delete_entities`, lines 246-262: always reaches the save and the
success message. -/
def delete_entities (sys : Sys) (entity_names : List String) : Sys × String :=
  let st := delete_entities_loop sys.store entity_names
  ({ store := st, file := _save_graph st }, "Successfully deleted entities")

/-- Remove every occurrence of `obs` from the entity's observation list
(`[o for o in entity.observations if o != obs]`, assigned in place). -/
def removeObs (obs : String) (e : Entity) : Entity :=
  { e with observations := e.observations.filter (fun o => !(o == obs)) }

/-- One applied deletion: mutate the named entity's observation list. -/
def applyDel (st : Store) (d : ObsDeletion) : Store :=
  { st with entities := dictUpdate st.entities d.entity_name (removeObs d.observation) }

/-- The single loop of `delete_observations`, lines 273-278: each input is
checked and applied immediately; the first missing entity returns the
error with the deletions applied so far kept in memory. -/
def delete_observations_loop (st : Store) : List ObsDeletion → Store × Option String
  | [] => (st, none)
  | d :: rest =>
      if !(dictContains st.entities d.entity_name) then
        (st, some ("Entity not found: " ++ d.entity_name))
      else
        delete_observations_loop (applyDel st d) rest

/-- `delete_observations`, lines 264-281: the early error return skips
`_save_graph`. -/
def delete_observations (sys : Sys) (deletions : List ObsDeletion) : Sys × String :=
  match delete_observations_loop sys.store deletions with
  | (st, none) => ({ store := st, file := _save_graph st }, "Successfully deleted observations")
  | (st, some msg) => ({ sys with store := st }, msg)

/-- The match predicate of `search_nodes`, lines 354-363: lowered query
against lowered name or entity type, else against each lowered
observation. -/
def entityMatches (q : String) (n : String) (e : Entity) : Bool :=
  if pyIn q (lowerStr n) || pyIn q (lowerStr e.entity_type) then true
  else e.observations.any (fun o => pyIn q (lowerStr o))

/-- `search_nodes`, lines 341-386: the matching entities in iteration
order, and the relations with at least one endpoint among the matching
entities' names.  (The method then serializes both into plain dicts;
the association list and relation list carry the same data.) -/
def search_nodes (st : Store) (query : String) : EntityDict × List Relation :=
  let q := lowerStr query
  let matching := st.entities.filter (fun p => entityMatches q p.1 p.2)
  (matching,
   st.relations.filter
     (fun r => dictContains matching r.from_entity || dictContains matching r.to_entity))

/-! Classification of file lines used to state the load-tolerance claim.
A well-formed entity record is an object with string `name` and
`entity_type` and an absent or string-list `observations`; a well-formed
relation record is an object without `name` carrying the three string
fields.  The two corrupt shapes named by the spec are an entity record
missing `entity_type` and a relation record missing `to_entity` or
`relation_type`. -/

/-- The `observations` the loader would read: default `[]` when absent. -/
def obsOf? (fs : List (String × Json)) : Option (List String) :=
  match objGet? fs "observations" with
  | none => some []
  | some (.arr es) => es.mapM asStr?
  | some _ => none

/-- Whether a field value is a string of the data model. -/
def isStrVal? : Option Json → Bool
  | some (.str _) => true
  | _ => false

/-- The entity a well-formed entity record denotes. -/
def entRecordOf? : Json → Option Entity
  | .obj fs =>
      match objGet? fs "name", objGet? fs "entity_type", obsOf? fs with
      | some (.str n), some (.str t), some obs => some ⟨n, t, obs⟩
      | _, _, _ => none
  | _ => none

/-- The relation a well-formed relation record denotes. -/
def relRecordOf? : Json → Option Relation
  | .obj fs =>
      if objHasKey fs "name" then none
      else
        match objGet? fs "from_entity", objGet? fs "to_entity", objGet? fs "relation_type" with
        | some (.str f), some (.str t), some (.str r) => some ⟨f, t, r⟩
        | _, _, _ => none
  | _ => none

/-- An entity record (string `name`) with no `entity_type` key. -/
def isEntMissingType : Json → Bool
  | .obj fs => isStrVal? (objGet? fs "name") && !(objHasKey fs "entity_type")
  | _ => false

/-- A relation record (no `name`, string `from_entity`) missing
`to_entity`, or carrying a string `to_entity` but missing `relation_type`. -/
def isRelMissingField : Json → Bool
  | .obj fs =>
      !(objHasKey fs "name")
        && isStrVal? (objGet? fs "from_entity")
        && (!(objHasKey fs "to_entity")
            || (isStrVal? (objGet? fs "to_entity") && !(objHasKey fs "relation_type")))
  | _ => false

/-- A line the loader tolerates: blank, unparsable JSON, a well-formed
record, or one of the two per-line corruption shapes above. -/
def toleratedLine (l : Line) : Bool :=
  match l with
  | .blank => true
  | .invalid => true
  | .json j =>
      (entRecordOf? j).isSome || (relRecordOf? j).isSome
        || isEntMissingType j || isRelMissingField j

/-- Loading only the well-formed records of a line, skipping the rest. -/
def goodLoadStep (st : Store) : Line → Store
  | .json j =>
      match entRecordOf? j with
      | some e => { st with entities := dictInsert st.entities e.name e }
      | none =>
          match relRecordOf? j with
          | some r => { st with relations := st.relations ++ [r] }
          | none => st
  | _ => st

/-- Loading every well-formed record of the content, in order. -/
def goodLoad (st : Store) (ls : List Line) : Store :=
  ls.foldl goodLoadStep st

/-! Concrete states used by the closed counterexample and witness
theorems. -/

/-- A freshly constructed graph over an empty file. -/
def sysEmpty : Sys := ⟨emptyStore, []⟩

/-- A store holding entity `a` (one observation `o`), saved to its file. -/
def sysObs : Sys :=
  ⟨⟨[("a", ⟨"a", "t", ["o"]⟩)], []⟩, _save_graph ⟨[("a", ⟨"a", "t", ["o"]⟩)], []⟩⟩

/-- A store holding entities `a` and `b`, saved to its file. -/
def sysAB : Sys :=
  ⟨⟨[("a", ⟨"a", "t", []⟩), ("b", ⟨"b", "t", []⟩)], []⟩,
   _save_graph ⟨[("a", ⟨"a", "t", []⟩), ("b", ⟨"b", "t", []⟩)], []⟩⟩

/-- A store with two entities and one relation, for the round-trip witness. -/
def stRT : Store :=
  ⟨[("a", ⟨"a", "t", ["o1", "o2"]⟩), ("b", ⟨"b", "u", []⟩)], [⟨"a", "b", "r"⟩]⟩

/-- The spec's case-insensitive-search scenario store. -/
def stSearch : Store :=
  ⟨[("Test_Entity", ⟨"Test_Entity", "Project", ["Has a Widget"]⟩)], []⟩

/-! ### Helper lemmas about the dict embedding -/

theorem dictContains_iff {d : EntityDict} {k : String} :
    dictContains d k = true ↔ ∃ p ∈ d, p.1 = k := by
  simp [dictContains, List.any_eq_true]

theorem dictUpdate_keeps_contains (d : EntityDict) (k m : String) (f : Entity → Entity) :
    dictContains (dictUpdate d k f) m = dictContains d m := by
  unfold dictContains dictUpdate
  rw [List.any_map]
  congr 1
  funext p
  by_cases h : p.1 == k <;> simp [Function.comp, h]

theorem applyDel_keeps_contains (st : Store) (x : ObsDeletion) (m : String) :
    dictContains (applyDel st x).entities m = dictContains st.entities m := by
  simp [applyDel, dictUpdate_keeps_contains]

/-- C8: a line of valid JSON that is neither an object, a string nor an
array — here the line `42` — makes the membership test `"name" in data`
raise an uncaught `TypeError`, aborting the whole load; the well-formed
entity record on the following line is never loaded. -/
theorem load_typeError_on_scalar_line :
    initialize_graph_from_data emptyStore
      [Line.json (Json.num 42),
       Line.json (Json.obj [("name", Json.str "a"), ("entity_type", Json.str "t")])]
      = Except.error PyErr.typeError := rfl

/-- C2, counterexample: deleting `("a", "o")` then `("b", "x")` when only
entity `a` exists returns the not-found message for `b`, yet `a`'s
observation `o` has already been deleted — the call is not atomic. -/
theorem delete_observations_cex :
    (delete_observations sysObs [⟨"a", "o"⟩, ⟨"b", "x"⟩]).2 = "Entity not found: b" ∧
    dictGet? sysObs.store.entities "a" = some ⟨"a", "t", ["o"]⟩ ∧
    dictGet? (delete_observations sysObs [⟨"a", "o"⟩, ⟨"b", "x"⟩]).1.store.entities "a"
      = some ⟨"a", "t", []⟩ :=
  ⟨rfl, rfl, rfl⟩

theorem delete_observations_loop_split (d : ObsDeletion) (post : List ObsDeletion)
    (pre : List ObsDeletion) :
    ∀ st : Store,
      (∀ x ∈ pre, dictContains st.entities x.entity_name = true) →
      dictContains st.entities d.entity_name = false →
      delete_observations_loop st (pre ++ d :: post)
        = (pre.foldl applyDel st, some ("Entity not found: " ++ d.entity_name)) := by
  induction pre with
  | nil =>
      intro st _ hd
      simp [delete_observations_loop, hd]
  | cons x pre ih =>
      intro st hpre hd
      have hx : dictContains st.entities x.entity_name = true := hpre x (by simp)
      simp only [List.cons_append, delete_observations_loop, hx, Bool.not_true,
        Bool.false_eq_true, if_false, List.foldl_cons]
      exact ih (applyDel st x)
        (fun y hy => by
          rw [applyDel_keeps_contains]
          exact hpre y (List.mem_cons_of_mem x hy))
        (by rw [applyDel_keeps_contains]; exact hd)

/-- C2, amended: when every entity named before the first missing one
exists, `delete_observations` returns the not-found message for the first
missing entity and skips the save (the file is untouched), but the
deletions listed before it HAVE been applied to the in-memory entities. -/
theorem delete_observations_partial (sys : Sys) (pre : List ObsDeletion) (d : ObsDeletion)
    (post : List ObsDeletion)
    (hpre : ∀ x ∈ pre, dictContains sys.store.entities x.entity_name = true)
    (hd : dictContains sys.store.entities d.entity_name = false) :
    delete_observations sys (pre ++ d :: post)
      = (⟨pre.foldl applyDel sys.store, sys.file⟩, "Entity not found: " ++ d.entity_name) := by
  unfold delete_observations
  rw [delete_observations_loop_split d post pre sys.store hpre hd]

/-- Witness for the amended C2 theorem at the concrete scenario. -/
theorem delete_observations_partial_witness :
    delete_observations sysObs ([⟨"a", "o"⟩] ++ ⟨"b", "x"⟩ :: [])
      = (⟨[(⟨"a", "o"⟩ : ObsDeletion)].foldl applyDel sysObs.store, sysObs.file⟩,
         "Entity not found: " ++ "b") :=
  delete_observations_partial sysObs [⟨"a", "o"⟩] ⟨"b", "x"⟩ [] (by decide) (by decide)

/-- C3, counterexample: with entities `a`, `b` on file, creating the
relations `a→b` then `a→c` (the second invalid) returns the not-found
message, keeps `a→b` in the in-memory relation list, but writes nothing:
the file still holds exactly the two entity records, so the first valid
relation is NOT persisted to the file; and the returned message is the
triple-quoted multi-line string, not the one-line form. -/
theorem create_relations_cex :
    (create_relations sysAB [⟨"a", "b", "r"⟩, ⟨"a", "c", "r"⟩]).1.store.relations
      = [⟨"a", "b", "r"⟩] ∧
    (create_relations sysAB [⟨"a", "b", "r"⟩, ⟨"a", "c", "r"⟩]).1.file = sysAB.file ∧
    sysAB.file
      = [Line.json (Json.obj
          [("name", Json.str "a"), ("entity_type", Json.str "t"),
           ("observations", Json.arr [])]),
         Line.json (Json.obj
          [("name", Json.str "b"), ("entity_type", Json.str "t"),
           ("observations", Json.arr [])])] ∧
    (create_relations sysAB [⟨"a", "b", "r"⟩, ⟨"a", "c", "r"⟩]).2 = relNotFoundMsg "a" "c" ∧
    relNotFoundMsg "a" "c" ≠ "One or both entities not found: a, c" :=
  ⟨rfl, rfl, rfl, rfl, by decide⟩

theorem create_relations_loop_split (r : RelationInput) (post : List RelationInput)
    (pre : List RelationInput) :
    ∀ st : Store,
      (∀ x ∈ pre, dictContains st.entities x.from_entity = true
        ∧ dictContains st.entities x.to_entity = true) →
      (dictContains st.entities r.from_entity = false
        ∨ dictContains st.entities r.to_entity = false) →
      create_relations_loop st (pre ++ r :: post)
        = ({ st with relations := st.relations
              ++ pre.map (fun x => ⟨x.from_entity, x.to_entity, x.relation_type⟩) },
           some (relNotFoundMsg r.from_entity r.to_entity)) := by
  induction pre with
  | nil =>
      intro st _ hr
      rcases hr with hr | hr <;> simp [create_relations_loop, hr]
  | cons x pre ih =>
      intro st hpre hr
      have hx := hpre x (by simp)
      simp only [List.cons_append, create_relations_loop, hx.1, hx.2, Bool.not_true,
        Bool.or_self, Bool.false_eq_true, if_false, List.map_cons]
      have step := ih { st with relations := st.relations
          ++ [⟨x.from_entity, x.to_entity, x.relation_type⟩] }
        (fun y hy => hpre y (List.mem_cons_of_mem x hy)) hr
      exact step.trans (by simp [List.append_assoc])

/-- C3, amended: when every relation before the first invalid one has both
endpoints present, `create_relations` appends those earlier relations to
the in-memory relation list and returns the (multi-line) not-found message
for the first invalid relation — but it skips the save, so the file is
untouched and nothing from the call is persisted. -/
theorem create_relations_partial (sys : Sys) (pre : List RelationInput) (r : RelationInput)
    (post : List RelationInput)
    (hpre : ∀ x ∈ pre, dictContains sys.store.entities x.from_entity = true
      ∧ dictContains sys.store.entities x.to_entity = true)
    (hr : dictContains sys.store.entities r.from_entity = false
      ∨ dictContains sys.store.entities r.to_entity = false) :
    create_relations sys (pre ++ r :: post)
      = (⟨⟨sys.store.entities, sys.store.relations
            ++ pre.map (fun x => ⟨x.from_entity, x.to_entity, x.relation_type⟩)⟩, sys.file⟩,
         relNotFoundMsg r.from_entity r.to_entity) := by
  unfold create_relations
  rw [create_relations_loop_split r post pre sys.store hpre hr]

/-- Witness for the amended C3 theorem at the concrete scenario. -/
theorem create_relations_partial_witness :
    create_relations sysAB ([⟨"a", "b", "r"⟩] ++ ⟨"a", "c", "r"⟩ :: [])
      = (⟨⟨sysAB.store.entities, sysAB.store.relations
            ++ [(⟨"a", "b", "r"⟩ : RelationInput)].map
                (fun x => ⟨x.from_entity, x.to_entity, x.relation_type⟩)⟩, sysAB.file⟩,
         relNotFoundMsg "a" "c") :=
  create_relations_partial sysAB [⟨"a", "b", "r"⟩] ⟨"a", "c", "r"⟩ [] (by decide) (by decide)

/-! ### Lemmas about `dictInsert` -/

theorem dictInsert_of_not_contains {d : EntityDict} {k : String} {v : Entity}
    (h : dictContains d k = false) : dictInsert d k v = d ++ [(k, v)] := by
  simp [dictInsert, h]

theorem dictContains_false_forall {d : EntityDict} {k : String}
    (h : dictContains d k = false) : ∀ p ∈ d, (p.1 == k) = false := by
  intro p hp
  by_contra hne
  rw [show dictContains d k = true from List.any_eq_true.mpr
    ⟨p, hp, by revert hne; cases (p.1 == k) <;> simp⟩] at h
  cases h

theorem find?_eq_none_of_not_contains {d : EntityDict} {k : String}
    (h : dictContains d k = false) : d.find? (fun p => p.1 == k) = none :=
  List.find?_eq_none.mpr (fun p hp => by rw [dictContains_false_forall h p hp]; simp)

theorem dictContains_dictInsert_of_ne {d : EntityDict} {k m : String} {v : Entity}
    (hkm : (k == m) = false) :
    dictContains (dictInsert d k v) m = dictContains d m := by
  unfold dictInsert
  by_cases h : dictContains d k = true
  · rw [if_pos h]
    unfold dictContains
    rw [List.any_map]
    congr 1
    funext p
    by_cases hp : (p.1 == k) = true
    · have hk : p.1 = k := eq_of_beq hp
      simp [Function.comp, hp, hk, hkm]
    · simp [Function.comp, hp]
  · rw [if_neg h]
    unfold dictContains
    rw [List.any_append]
    simp [hkm]

theorem dictContains_dictInsert_self {d : EntityDict} {k : String} {v : Entity} :
    dictContains (dictInsert d k v) k = true := by
  unfold dictInsert
  by_cases h : dictContains d k = true
  · rw [if_pos h]
    rcases dictContains_iff.mp h with ⟨p, hp, hk⟩
    refine dictContains_iff.mpr ⟨(k, v), List.mem_map.mpr ⟨p, hp, ?_⟩, rfl⟩
    rw [if_pos (by rw [hk]; simp)]
  · rw [if_neg h]
    exact dictContains_iff.mpr ⟨(k, v), by simp, rfl⟩

theorem countKey_eq_zero {d : EntityDict} {n : String}
    (h : dictContains d n = false) : countKey d n = 0 := by
  unfold countKey
  rw [List.length_eq_zero, List.filter_eq_nil_iff]
  intro p hp
  rw [dictContains_false_forall h p hp]
  simp

theorem contains_of_countKey_one {d : EntityDict} {n : String}
    (h : countKey d n = 1) : dictContains d n = true := by
  by_contra hc
  rw [countKey_eq_zero (by revert hc; cases dictContains d n <;> simp)] at h
  cases h

theorem countKey_dictInsert_fresh {d : EntityDict} {n : String} {v : Entity}
    (h : dictContains d n = false) : countKey (dictInsert d n v) n = 1 := by
  rw [dictInsert_of_not_contains h]
  unfold countKey
  rw [List.filter_append]
  have h0 : countKey d n = 0 := countKey_eq_zero h
  unfold countKey at h0
  rw [List.length_eq_zero] at h0
  simp [h0]

theorem countKey_dictInsert_of_ne {d : EntityDict} {k n : String} {v : Entity}
    (hkn : (k == n) = false) : countKey (dictInsert d k v) n = countKey d n := by
  unfold dictInsert
  by_cases h : dictContains d k = true
  · rw [if_pos h]
    unfold countKey
    rw [List.filter_map, List.length_map]
    congr 1
    apply List.filter_congr
    intro p _
    by_cases hp : (p.1 == k) = true
    · have hk : p.1 = k := eq_of_beq hp
      simp [Function.comp, hp, hk, hkn]
    · simp [Function.comp, hp]
  · rw [if_neg h]
    unfold countKey
    rw [List.filter_append]
    simp [hkn]

theorem countKey_dictInsert_of_contains {d : EntityDict} {k n : String} {v : Entity}
    (h : dictContains d k = true) : countKey (dictInsert d k v) n = countKey d n := by
  unfold dictInsert countKey
  rw [if_pos h, List.filter_map, List.length_map]
  congr 1
  apply List.filter_congr
  intro p _
  by_cases hp : (p.1 == k) = true
  · have hk : p.1 = k := eq_of_beq hp
    simp [Function.comp, hp, hk]
  · simp [Function.comp, hp]

theorem countKey_foldl_of_one {n : String} (es : List EntityInput) :
    ∀ d : EntityDict, countKey d n = 1 → countKey (es.foldl insertInput d) n = 1 := by
  induction es with
  | nil => intro d h; exact h
  | cons e es ih =>
      intro d h
      rw [List.foldl_cons]
      refine ih _ ?_
      unfold insertInput
      by_cases he : (e.name == n) = true
      · have hn : e.name = n := eq_of_beq he
        rw [countKey_dictInsert_of_contains (by rw [hn]; exact contains_of_countKey_one h)]
        exact h
      · rw [countKey_dictInsert_of_ne (by revert he; cases (e.name == n) <;> simp)]
        exact h

theorem countKey_foldl_reaches_one {n : String} (es : List EntityInput) :
    ∀ d : EntityDict, dictContains d n = false → (∃ e ∈ es, e.name = n) →
      countKey (es.foldl insertInput d) n = 1 := by
  induction es with
  | nil => intro d _ hex; rcases hex with ⟨e, he, _⟩; cases he
  | cons e es ih =>
      intro d hd hex
      rw [List.foldl_cons]
      by_cases he : (e.name == n) = true
      · have hn : e.name = n := eq_of_beq he
        refine countKey_foldl_of_one es _ ?_
        unfold insertInput
        rw [hn]
        exact countKey_dictInsert_fresh hd
      · have he' : (e.name == n) = false := by revert he; cases (e.name == n) <;> simp
        rcases hex with ⟨x, hx, hxn⟩
        rcases List.mem_cons.mp hx with rfl | hx'
        · rw [hxn] at he'; simp at he'
        · refine ih _ ?_ ⟨x, hx', hxn⟩
          unfold insertInput
          rw [dictContains_dictInsert_of_ne he']
          exact hd

theorem find?_overwrite (k : String) (v : Entity) (d : EntityDict) :
    List.find? (fun p => p.1 == k) (d.map (fun p => if p.1 == k then (k, v) else p))
      = (List.find? (fun p => p.1 == k) d).map (fun _ => (k, v)) := by
  induction d with
  | nil => rfl
  | cons p d ih =>
      by_cases hp : (p.1 == k) = true
      · have hmap : (p :: d).map (fun p => if p.1 == k then (k, v) else p)
            = (k, v) :: d.map (fun p => if p.1 == k then (k, v) else p) := by
          simp only [List.map_cons]
          rw [if_pos hp]
        have h1 : List.find? (fun p => p.1 == k)
            ((k, v) :: d.map (fun p => if p.1 == k then (k, v) else p)) = some (k, v) :=
          List.find?_cons_of_pos _ (by simp)
        have h2 : List.find? (fun p => p.1 == k) (p :: d) = some p :=
          List.find?_cons_of_pos _ hp
        rw [hmap, h1, h2]
        rfl
      · have hmap : (p :: d).map (fun p => if p.1 == k then (k, v) else p)
            = p :: d.map (fun p => if p.1 == k then (k, v) else p) := by
          simp only [List.map_cons]
          rw [if_neg hp]
        have h1 : List.find? (fun p => p.1 == k)
            (p :: d.map (fun p => if p.1 == k then (k, v) else p))
            = List.find? (fun p => p.1 == k)
                (d.map (fun p => if p.1 == k then (k, v) else p)) :=
          List.find?_cons_of_neg _ hp
        have h2 : List.find? (fun p => p.1 == k) (p :: d)
            = List.find? (fun p => p.1 == k) d :=
          List.find?_cons_of_neg _ hp
        rw [hmap, h1, h2]
        exact ih

theorem find?_overwrite_ne (k n : String) (v : Entity) (hkn : (k == n) = false)
    (d : EntityDict) :
    List.find? (fun p => p.1 == n) (d.map (fun p => if p.1 == k then (k, v) else p))
      = List.find? (fun p => p.1 == n) d := by
  induction d with
  | nil => rfl
  | cons p d ih =>
      by_cases hp : (p.1 == k) = true
      · have hpk : p.1 = k := eq_of_beq hp
        have hmap : (p :: d).map (fun p => if p.1 == k then (k, v) else p)
            = (k, v) :: d.map (fun p => if p.1 == k then (k, v) else p) := by
          simp only [List.map_cons]
          rw [if_pos hp]
        have h1 : List.find? (fun p => p.1 == n)
            ((k, v) :: d.map (fun p => if p.1 == k then (k, v) else p))
            = List.find? (fun p => p.1 == n)
                (d.map (fun p => if p.1 == k then (k, v) else p)) :=
          List.find?_cons_of_neg _ (by simp [hkn])
        have h2 : List.find? (fun p => p.1 == n) (p :: d)
            = List.find? (fun p => p.1 == n) d :=
          List.find?_cons_of_neg _ (by simp [hpk, hkn])
        rw [hmap, h1, h2]
        exact ih
      · have hmap : (p :: d).map (fun p => if p.1 == k then (k, v) else p)
            = p :: d.map (fun p => if p.1 == k then (k, v) else p) := by
          simp only [List.map_cons]
          rw [if_neg hp]
        by_cases hq : (p.1 == n) = true
        · have h1 : List.find? (fun p => p.1 == n)
              (p :: d.map (fun p => if p.1 == k then (k, v) else p)) = some p :=
            List.find?_cons_of_pos _ hq
          have h2 : List.find? (fun p => p.1 == n) (p :: d) = some p :=
            List.find?_cons_of_pos _ hq
          rw [hmap, h1, h2]
        · have h1 : List.find? (fun p => p.1 == n)
              (p :: d.map (fun p => if p.1 == k then (k, v) else p))
              = List.find? (fun p => p.1 == n)
                  (d.map (fun p => if p.1 == k then (k, v) else p)) :=
            List.find?_cons_of_neg _ hq
          have h2 : List.find? (fun p => p.1 == n) (p :: d)
              = List.find? (fun p => p.1 == n) d :=
            List.find?_cons_of_neg _ hq
          rw [hmap, h1, h2]
          exact ih

theorem dictGet?_dictInsert_self {d : EntityDict} {k : String} {v : Entity} :
    dictGet? (dictInsert d k v) k = some v := by
  unfold dictInsert dictGet?
  cases h : dictContains d k
  · rw [if_neg (by simp), List.find?_append, find?_eq_none_of_not_contains h]
    simp
  · rw [if_pos rfl, find?_overwrite]
    have hex : ∃ p ∈ d, (p.1 == k) = true := by
      simpa [dictContains, List.any_eq_true] using h
    obtain ⟨o, ho⟩ := Option.isSome_iff_exists.mp (List.find?_isSome.mpr hex)
    rw [ho]
    rfl

theorem dictGet?_dictInsert_of_ne {d : EntityDict} {k n : String} {v : Entity}
    (hkn : (k == n) = false) : dictGet? (dictInsert d k v) n = dictGet? d n := by
  unfold dictInsert dictGet?
  cases h : dictContains d k
  · rw [if_neg (by simp), List.find?_append]
    have hnone : List.find? (fun p => p.1 == n) [(k, v)] = none :=
      List.find?_eq_none.mpr (fun x hx => by
        rcases List.mem_singleton.mp hx with rfl
        simp [hkn])
    rw [hnone, Option.or_none]
  · rw [if_pos rfl, find?_overwrite_ne k n v hkn]

theorem getLast?_mem_of_eq_some {α : Type} {l : List α} {a : α}
    (h : l.getLast? = some a) : a ∈ l := by
  rcases List.mem_getLast?_eq_getLast (Option.mem_def.mpr h) with ⟨hne, ha⟩
  rw [ha]
  exact List.getLast_mem hne

theorem dictGet?_foldl_insertInput (n : String) (es : List EntityInput) :
    ∀ d : EntityDict,
      dictGet? (es.foldl insertInput d) n
        = (es.filter (fun e => e.name == n)).getLast?.elim (dictGet? d n)
            (fun e => some (entityOfInput e)) := by
  induction es with
  | nil => intro d; rfl
  | cons e es ih =>
      intro d
      rw [List.foldl_cons, ih (insertInput d e), List.filter_cons]
      by_cases he : (e.name == n) = true
      · rw [if_pos he]
        have hn : e.name = n := eq_of_beq he
        cases hl : (es.filter (fun e => e.name == n)).getLast?
        · have hnil : es.filter (fun e => e.name == n) = [] :=
            List.getLast?_eq_none_iff.mp hl
          rw [hnil]
          show dictGet? (insertInput d e) n = some (entityOfInput e)
          unfold insertInput
          rw [← hn]
          exact dictGet?_dictInsert_self
        · obtain ⟨y, ys, hys⟩ :=
            List.exists_cons_of_ne_nil (l := es.filter (fun e => e.name == n))
              (by intro h0; rw [h0, List.getLast?_nil] at hl; cases hl)
          rw [hys, List.getLast?_cons_cons, ← hys, hl]
          rfl
      · rw [if_neg he]
        have he' : (e.name == n) = false := by revert he; cases (e.name == n) <;> simp
        cases hl : (es.filter (fun e => e.name == n)).getLast?
        · show dictGet? (insertInput d e) n = dictGet? d n
          unfold insertInput
          exact dictGet?_dictInsert_of_ne he'
        · rfl

/-- C4: `create_entities` is all-or-nothing.  If some input's name already
exists, the call returns the already-exists message for the first such
input and changes nothing (store and file untouched).  Otherwise the check
passes, the call reports success and inserts every input; for any name `n`
given in the call, the resulting store holds exactly one entity keyed `n`,
and any later `create_entities` call whose first offending input exists
(in particular one reusing `n`) is rejected unchanged — so creating the
same entity name twice leaves exactly one entity with that name. -/
theorem create_entities_all_or_nothing (sys : Sys) (es : List EntityInput) :
    (∀ e, es.find? (fun x => dictContains sys.store.entities x.name) = some e →
      create_entities sys es = (sys, "Entity already exists: " ++ e.name)) ∧
    (es.find? (fun x => dictContains sys.store.entities x.name) = none →
      (create_entities sys es).2 = "Successfully created entities" ∧
      (create_entities sys es).1.store.entities = es.foldl insertInput sys.store.entities ∧
      ∀ n, (∃ e ∈ es, e.name = n) →
        countKey (create_entities sys es).1.store.entities n = 1 ∧
        ∀ es2 e2,
          es2.find? (fun x => dictContains (create_entities sys es).1.store.entities x.name)
            = some e2 →
          create_entities (create_entities sys es).1 es2
            = ((create_entities sys es).1, "Entity already exists: " ++ e2.name)) := by
  constructor
  · intro e he
    unfold create_entities
    rw [he]
  · intro hn
    have hself : (create_entities sys es).1.store.entities
        = es.foldl insertInput sys.store.entities := by
      unfold create_entities
      rw [hn]
    refine ⟨by unfold create_entities; rw [hn], hself, ?_⟩
    intro n hex
    have hfresh : dictContains sys.store.entities n = false := by
      rcases hex with ⟨x, hx, hxn⟩
      have hh := List.find?_eq_none.mp hn x hx
      rw [hxn] at hh
      revert hh
      cases dictContains sys.store.entities n <;> simp
    constructor
    · rw [hself]
      exact countKey_foldl_reaches_one es _ hfresh hex
    · intro es2 e2 he2
      set S := (create_entities sys es).1 with hS
      unfold create_entities
      rw [he2]

/-- Witness for the C4 theorem: creating entity `a` on an empty store
succeeds and leaves one entry keyed `a`; creating it again is rejected
with the already-exists message and changes nothing. -/
theorem create_entities_all_or_nothing_witness :
    (create_entities sysEmpty [⟨"a", "t", none⟩]).2 = "Successfully created entities" ∧
    countKey (create_entities sysEmpty [⟨"a", "t", none⟩]).1.store.entities "a" = 1 ∧
    create_entities (create_entities sysEmpty [⟨"a", "t", none⟩]).1 [⟨"a", "t", none⟩]
      = ((create_entities sysEmpty [⟨"a", "t", none⟩]).1,
         "Entity already exists: " ++ "a") := by
  have T := create_entities_all_or_nothing sysEmpty [⟨"a", "t", none⟩]
  have h2 := T.2 (by decide)
  have h3 := h2.2.2 "a" ⟨⟨"a", "t", none⟩, by simp, rfl⟩
  exact ⟨h2.1, h3.1, h3.2 [⟨"a", "t", none⟩] ⟨"a", "t", none⟩ (by decide)⟩

/-- C9: a single `create_entities` call whose inputs repeat a name `n`
that is not yet in the store (and whose other names are fresh as well, so
the pre-insertion check passes) succeeds, and the store ends with exactly
one entity keyed `n` carrying the entity type and observations of the
LAST input with that name — in-call duplicates are not rejected, the last
one wins. -/
theorem create_entities_dup_last_wins (sys : Sys) (es : List EntityInput) (n : String)
    (hfresh : ∀ e ∈ es, dictContains sys.store.entities e.name = false)
    (hdup : 2 ≤ (es.filter (fun e => e.name == n)).length) :
    es.find? (fun x => dictContains sys.store.entities x.name) = none ∧
    (create_entities sys es).2 = "Successfully created entities" ∧
    countKey (create_entities sys es).1.store.entities n = 1 ∧
    ∃ last, (es.filter (fun e => e.name == n)).getLast? = some last ∧
      dictGet? (create_entities sys es).1.store.entities n
        = some ⟨n, last.entity_type, last.observations.getD []⟩ := by
  have hfind : es.find? (fun x => dictContains sys.store.entities x.name) = none :=
    List.find?_eq_none.mpr (fun x hx => by rw [hfresh x hx]; simp)
  have hself : (create_entities sys es).1.store.entities
      = es.foldl insertInput sys.store.entities := by
    unfold create_entities
    rw [hfind]
  have hne : es.filter (fun e => e.name == n) ≠ [] := by
    intro h0
    rw [h0] at hdup
    simp at hdup
  have hex : ∃ e ∈ es, e.name = n := by
    obtain ⟨x, hx⟩ := List.exists_mem_of_ne_nil _ hne
    have hx' := List.mem_filter.mp hx
    exact ⟨x, hx'.1, eq_of_beq hx'.2⟩
  have hcn : dictContains sys.store.entities n = false := by
    rcases hex with ⟨x, hx, hxn⟩
    have := hfresh x hx
    rwa [hxn] at this
  refine ⟨hfind, by unfold create_entities; rw [hfind], ?_, ?_⟩
  · rw [hself]
    exact countKey_foldl_reaches_one es _ hcn hex
  · obtain ⟨last, hlast⟩ : ∃ l, (es.filter (fun e => e.name == n)).getLast? = some l := by
      cases hl : (es.filter (fun e => e.name == n)).getLast?
      · exact absurd (List.getLast?_eq_none_iff.mp hl) hne
      · exact ⟨_, rfl⟩
    refine ⟨last, hlast, ?_⟩
    rw [hself, dictGet?_foldl_insertInput n es sys.store.entities, hlast]
    have hlastn : last.name = n :=
      eq_of_beq (List.mem_filter.mp (getLast?_mem_of_eq_some hlast)).2
    simp [entityOfInput, hlastn]

/-- Witness for the C9 theorem: two inputs named `a` in one call; the
call succeeds and the stored entity carries the second input's data. -/
theorem create_entities_dup_last_wins_witness :
    countKey
      (create_entities sysEmpty [⟨"a", "t1", some ["x"]⟩, ⟨"a", "t2", none⟩]).1.store.entities
      "a" = 1 ∧
    dictGet?
      (create_entities sysEmpty [⟨"a", "t1", some ["x"]⟩, ⟨"a", "t2", none⟩]).1.store.entities
      "a" = some ⟨"a", "t2", []⟩ := by
  have T := create_entities_dup_last_wins sysEmpty
    [⟨"a", "t1", some ["x"]⟩, ⟨"a", "t2", none⟩] "a" (by decide) (by decide)
  obtain ⟨-, -, hcount, last, hlast, hget⟩ := T
  refine ⟨hcount, ?_⟩
  have : last = ⟨"a", "t2", none⟩ := by
    rw [show (([⟨"a", "t1", some ["x"]⟩, ⟨"a", "t2", none⟩] : List EntityInput).filter
      (fun e => e.name == "a")).getLast? = some ⟨"a", "t2", none⟩ from by decide] at hlast
    exact (Option.some_inj.mp hlast).symm
  rw [hget, this]
  rfl

/-! ### C5: cascade delete -/

theorem any_congr' {α : Type} {l : List α} {p q : α → Bool} (h : ∀ x ∈ l, p x = q x) :
    l.any p = l.any q := by
  induction l with
  | nil => rfl
  | cons a l ih =>
      simp only [List.any_cons, h a (by simp),
        ih (fun x hx => h x (List.mem_cons_of_mem a hx))]

theorem filter_congr' {α : Type} {l : List α} {p q : α → Bool} (h : ∀ x ∈ l, p x = q x) :
    l.filter p = l.filter q :=
  List.filter_congr h

theorem dictContains_dictDelete (d : EntityDict) (n m : String) :
    dictContains (dictDelete d n) m = (dictContains d m && !(m == n)) := by
  unfold dictContains dictDelete
  rw [List.any_filter]
  cases hmn : (m == n)
  · simp only [Bool.not_false, Bool.and_true]
    apply any_congr'
    intro p _
    by_cases hp : (p.1 == m) = true
    · have hpm : p.1 = m := eq_of_beq hp
      simp [hpm, hmn]
    · have hp' : (p.1 == m) = false := by revert hp; cases (p.1 == m) <;> simp
      simp [hp']
  · have hmn' : m = n := eq_of_beq hmn
    simp only [Bool.not_true, Bool.and_false]
    rw [List.any_eq_false]
    intro p _
    by_cases hp : (p.1 == m) = true
    · have hpm : p.1 = m := eq_of_beq hp
      simp [hpm, hmn']
    · simp [hp]

theorem delete_entities_loop_cons (st : Store) (n : String) (ns : List String) :
    delete_entities_loop st (n :: ns)
      = if dictContains st.entities n = true then
          delete_entities_loop
            ⟨dictDelete st.entities n,
             st.relations.filter (fun r => !(n == r.from_entity || n == r.to_entity))⟩ ns
        else delete_entities_loop st ns := rfl

theorem delete_entities_loop_eq (names : List String) :
    ∀ st : Store,
      delete_entities_loop st names
        = ⟨st.entities.filter (fun p => !(names.any (fun n => p.1 == n))),
           st.relations.filter (fun r =>
             !(names.any (fun n => dictContains st.entities n
                && (n == r.from_entity || n == r.to_entity))))⟩ := by
  induction names with
  | nil =>
      intro st
      have h1 : st.entities.filter (fun p => !(([] : List String).any (fun n => p.1 == n)))
          = st.entities := List.filter_eq_self.mpr (fun a _ => rfl)
      have h2 : st.relations.filter (fun r => !(([] : List String).any (fun n =>
          dictContains st.entities n && (n == r.from_entity || n == r.to_entity))))
          = st.relations := List.filter_eq_self.mpr (fun a _ => rfl)
      show st = _
      rw [h1, h2]
  | cons n ns ih =>
      intro st
      rw [delete_entities_loop_cons]
      cases h : dictContains st.entities n
      · rw [if_neg (by simp), ih st]
        have hkeys := dictContains_false_forall h
        rw [Store.mk.injEq]
        refine ⟨?_, ?_⟩
        · apply filter_congr'
          intro p hp
          simp only [List.any_cons, hkeys p hp, Bool.false_or]
        · apply filter_congr'
          intro r _
          simp only [List.any_cons, h, Bool.false_and, Bool.false_or]
      · rw [if_pos rfl, ih]
        rw [Store.mk.injEq]
        refine ⟨?_, ?_⟩
        · rw [show dictDelete st.entities n
              = st.entities.filter (fun p => !(p.1 == n)) from rfl]
          rw [List.filter_filter]
          apply filter_congr'
          intro p _
          simp only [List.any_cons]
          cases (p.1 == n) <;> cases ns.any (fun m => p.1 == m) <;> rfl
        · rw [List.filter_filter]
          apply filter_congr'
          intro r _
          simp only [List.any_cons, h, Bool.true_and]
          have hns : ns.any (fun m => dictContains (dictDelete st.entities n) m
                && (m == r.from_entity || m == r.to_entity))
              = ns.any (fun m => (dictContains st.entities m && !(m == n))
                && (m == r.from_entity || m == r.to_entity)) := by
            apply any_congr'
            intro m _
            rw [dictContains_dictDelete]
          rw [hns]
          cases hA : (n == r.from_entity || n == r.to_entity)
          · simp only [Bool.and_true, Bool.not_false, Bool.false_or]
            have : ns.any (fun m => (dictContains st.entities m && !(m == n))
                  && (m == r.from_entity || m == r.to_entity))
                = ns.any (fun m => dictContains st.entities m
                  && (m == r.from_entity || m == r.to_entity)) := by
              apply any_congr'
              intro m _
              by_cases hm : (m == n) = true
              · have hmn : m = n := eq_of_beq hm
                rw [hmn, hA]
                simp
              · have hm' : (m == n) = false := by revert hm; cases (m == n) <;> simp
                rw [hm']
                simp
            rw [this]
          · simp [hA]

/-- C5: `delete_entities` always succeeds with the success message, and
for any list of names it removes exactly the entities whose key is one of
the names (unknown names are no-ops, other entities are untouched)
together with every relation having an existing named entity as either
endpoint; the resulting store is saved to the file. -/
theorem delete_entities_cascades (sys : Sys) (names : List String) :
    (delete_entities sys names).2 = "Successfully deleted entities" ∧
    (delete_entities sys names).1.store
      = ⟨sys.store.entities.filter (fun p => !(names.any (fun n => p.1 == n))),
         sys.store.relations.filter (fun r =>
           !(names.any (fun n => dictContains sys.store.entities n
              && (n == r.from_entity || n == r.to_entity))))⟩ ∧
    (delete_entities sys names).1.file = _save_graph (delete_entities sys names).1.store := by
  refine ⟨rfl, ?_, rfl⟩
  show delete_entities_loop sys.store names = _
  exact delete_entities_loop_eq names sys.store

/-! ### C6 and C10: search -/

theorem infixOfB_nil_left : ∀ l : List Char, infixOfB [] l = true
  | [] => rfl
  | c :: t => by simp [infixOfB, List.isPrefixOf]

theorem pyIn_empty_left (s : String) : pyIn "" s = true :=
  infixOfB_nil_left s.data

theorem entityMatches_iff {q n : String} {e : Entity} :
    entityMatches q n e = true ↔
      (pyIn q (lowerStr n) = true ∨ pyIn q (lowerStr e.entity_type) = true
        ∨ ∃ o ∈ e.observations, pyIn q (lowerStr o) = true) := by
  unfold entityMatches
  by_cases h : (pyIn q (lowerStr n) || pyIn q (lowerStr e.entity_type)) = true
  · rw [if_pos h]
    simp only [Bool.or_eq_true] at h
    simp only [true_iff]
    tauto
  · rw [if_neg h]
    have h' : pyIn q (lowerStr n) = false ∧ pyIn q (lowerStr e.entity_type) = false := by
      revert h
      cases pyIn q (lowerStr n) <;> cases pyIn q (lowerStr e.entity_type) <;> simp
    rw [List.any_eq_true]
    simp [h'.1, h'.2]

/-- C6: `search_nodes` matches exactly the entities whose lowered name,
lowered entity type, or some lowered observation contains the lowered
query as a substring, and returns exactly the relations having a matched
entity's name as `from_entity` or `to_entity`. -/
theorem search_nodes_spec (st : Store) (query : String) :
    (∀ n e, (n, e) ∈ (search_nodes st query).1 ↔
      ((n, e) ∈ st.entities ∧
        (pyIn (lowerStr query) (lowerStr n) = true
          ∨ pyIn (lowerStr query) (lowerStr e.entity_type) = true
          ∨ ∃ o ∈ e.observations, pyIn (lowerStr query) (lowerStr o) = true))) ∧
    (∀ r, r ∈ (search_nodes st query).2 ↔
      (r ∈ st.relations ∧
        ((∃ p ∈ (search_nodes st query).1, p.1 = r.from_entity)
          ∨ (∃ p ∈ (search_nodes st query).1, p.1 = r.to_entity)))) := by
  constructor
  · intro n e
    show (n, e) ∈ st.entities.filter (fun p => entityMatches (lowerStr query) p.1 p.2) ↔ _
    rw [List.mem_filter]
    exact and_congr_right (fun _ => entityMatches_iff)
  · intro r
    show r ∈ (st.relations.filter (fun r =>
        dictContains (st.entities.filter (fun p => entityMatches (lowerStr query) p.1 p.2))
          r.from_entity
        || dictContains (st.entities.filter (fun p => entityMatches (lowerStr query) p.1 p.2))
          r.to_entity)) ↔ _
    rw [List.mem_filter]
    apply and_congr_right
    intro _
    rw [Bool.or_eq_true]
    exact or_congr dictContains_iff dictContains_iff

/-- Witness for the C6 theorem: the spec's scenario entity is matched by
the case-insensitive observation query "widget". -/
theorem search_nodes_spec_witness :
    ("Test_Entity", (⟨"Test_Entity", "Project", ["Has a Widget"]⟩ : Entity))
      ∈ (search_nodes stSearch "widget").1 :=
  ((search_nodes_spec stSearch "widget").1 "Test_Entity"
      ⟨"Test_Entity", "Project", ["Has a Widget"]⟩).mpr
    ⟨by simp [stSearch], Or.inr (Or.inr ⟨"Has a Widget", by simp, by decide⟩)⟩

/-- C10: searching with the empty query matches every entity (the empty
string is a substring of everything) and returns every relation having at
least one endpoint among the store's entity names. -/
theorem search_nodes_empty_query (st : Store) :
    search_nodes st ""
      = (st.entities,
         st.relations.filter (fun r => dictContains st.entities r.from_entity
           || dictContains st.entities r.to_entity)) := by
  have hmatch : st.entities.filter (fun p => entityMatches (lowerStr "") p.1 p.2)
      = st.entities := by
    apply List.filter_eq_self.mpr
    intro p _
    unfold entityMatches
    refine if_pos ?_
    have h1 : pyIn (lowerStr "") (lowerStr p.1) = true := pyIn_empty_left _
    rw [h1]
    rfl
  show (st.entities.filter (fun p => entityMatches (lowerStr "") p.1 p.2),
      st.relations.filter (fun r =>
        dictContains (st.entities.filter (fun p => entityMatches (lowerStr "") p.1 p.2))
          r.from_entity
        || dictContains (st.entities.filter (fun p => entityMatches (lowerStr "") p.1 p.2))
          r.to_entity)) = _
  rw [hmatch]

/-! ### Lemmas about JSON object lookups -/

theorem objHasKey_of_objGet? {fs : List (String × Json)} {k : String} {v : Json}
    (h : objGet? fs k = some v) : objHasKey fs k = true := by
  unfold objGet? at h
  unfold objHasKey
  cases hf : fs.find? (fun p => p.1 == k) with
  | none => rw [hf] at h; cases h
  | some p =>
      rw [List.any_eq_true]
      have hb := List.find?_some hf
      exact ⟨p, List.mem_of_find?_eq_some hf, hb⟩

theorem objGet?_none_of_not_hasKey {fs : List (String × Json)} {k : String}
    (h : objHasKey fs k = false) : objGet? fs k = none := by
  unfold objGet?
  rw [List.find?_eq_none.mpr]
  · rfl
  · intro p hp hb
    rw [show objHasKey fs k = true from List.any_eq_true.mpr ⟨p, hp, hb⟩] at h
    cases h

theorem objHasKey_false_of_objGet?_none {fs : List (String × Json)} {k : String}
    (h : objGet? fs k = none) : objHasKey fs k = false := by
  cases hk : objHasKey fs k
  · rfl
  · exfalso
    unfold objHasKey at hk
    unfold objGet? at h
    obtain ⟨p, hp⟩ :=
      Option.isSome_iff_exists.mp (List.find?_isSome.mpr (List.any_eq_true.mp hk))
    rw [hp] at h
    simp at h

theorem objGet?_append_left (gs : List (String × Json)) {fs : List (String × Json)}
    {k : String} {v : Json} (h : objGet? fs k = some v) : objGet? (fs ++ gs) k = some v := by
  unfold objGet? at h ⊢
  rw [List.find?_append]
  cases hf : fs.find? (fun p => p.1 == k) with
  | none => rw [hf] at h; simp at h
  | some p => rw [hf] at h; exact h

theorem objGet?_append_right (gs : List (String × Json)) {fs : List (String × Json)}
    {k : String} (h : objHasKey fs k = false) : objGet? (fs ++ gs) k = objGet? gs k := by
  have hnone := objGet?_none_of_not_hasKey h
  unfold objGet? at hnone ⊢
  rw [List.find?_append]
  cases hf : fs.find? (fun p => p.1 == k) with
  | none => rfl
  | some p => rw [hf] at hnone; simp at hnone

theorem getStrField_str {fs : List (String × Json)} {k s : String}
    (h : objGet? fs k = some (Json.str s)) : getStrField fs k = Except.ok s := by
  unfold getStrField
  rw [h]

theorem getStrField_none {fs : List (String × Json)} {k : String}
    (h : objGet? fs k = none) : getStrField fs k = Except.error PyErr.keyError := by
  unfold getStrField
  rw [h]

theorem getObsField_arr {fs : List (String × Json)} {es : List Json} {obs : List String}
    (hov : objGet? fs "observations" = some (Json.arr es))
    (hm : es.mapM asStr? = some obs) : getObsField fs = Except.ok obs := by
  unfold getObsField
  rw [hov]
  show (match es.mapM asStr? with
    | some l => Except.ok l
    | none => Except.error PyErr.unmodeled) = _
  rw [hm]

/-! ### How `parseLine` behaves on each record shape -/

theorem parseLine_ent_present {fs : List (String × Json)} {n t : String} {es : List Json}
    {obs : List String}
    (hn : objGet? fs "name" = some (Json.str n))
    (ht : objGet? fs "entity_type" = some (Json.str t))
    (hov : objGet? fs "observations" = some (Json.arr es))
    (hm : es.mapM asStr? = some obs) :
    parseLine (Json.obj fs) = Except.ok (some (Parsed.ent ⟨n, t, obs⟩)) := by
  have hkey : objHasKey fs "name" = true := objHasKey_of_objGet? hn
  have hob : objHasKey fs "observations" = true := objHasKey_of_objGet? hov
  simp [parseLine, pyContains, hkey, hob, getStrField_str hn, getStrField_str ht,
    getObsField_arr hov hm]
  rfl

theorem parseLine_ent_defaulted {fs : List (String × Json)} {n t : String}
    (hn : objGet? fs "name" = some (Json.str n))
    (ht : objGet? fs "entity_type" = some (Json.str t))
    (hob : objHasKey fs "observations" = false) :
    parseLine (Json.obj fs) = Except.ok (some (Parsed.ent ⟨n, t, []⟩)) := by
  have hkey : objHasKey fs "name" = true := objHasKey_of_objGet? hn
  have hn2 := objGet?_append_left [("observations", Json.arr [])] hn
  have ht2 := objGet?_append_left [("observations", Json.arr [])] ht
  have hov2 : objGet? (fs ++ [("observations", Json.arr [])]) "observations"
      = some (Json.arr []) := by
    rw [objGet?_append_right [("observations", Json.arr [])] hob]
    rfl
  simp [parseLine, pyContains, hkey, hob, getStrField_str hn2, getStrField_str ht2,
    getObsField_arr hov2 rfl]
  rfl

theorem parseLine_rel_present {fs : List (String × Json)} {f t r : String}
    (hname : objHasKey fs "name" = false)
    (hf : objGet? fs "from_entity" = some (Json.str f))
    (ht : objGet? fs "to_entity" = some (Json.str t))
    (hr : objGet? fs "relation_type" = some (Json.str r)) :
    parseLine (Json.obj fs) = Except.ok (some (Parsed.rel ⟨f, t, r⟩)) := by
  have hfrom : objHasKey fs "from_entity" = true := objHasKey_of_objGet? hf
  simp [parseLine, pyContains, hname, hfrom, getStrField_str hf, getStrField_str ht,
    getStrField_str hr]
  rfl

theorem parseLine_ent_missing_type {fs : List (String × Json)} {n : String}
    (hn : objGet? fs "name" = some (Json.str n))
    (ht : objHasKey fs "entity_type" = false) :
    parseLine (Json.obj fs) = Except.error PyErr.keyError := by
  have hkey : objHasKey fs "name" = true := objHasKey_of_objGet? hn
  cases hob : objHasKey fs "observations"
  · have hn2 := objGet?_append_left [("observations", Json.arr [])] hn
    have ht2 : objGet? (fs ++ [("observations", Json.arr [])]) "entity_type" = none := by
      rw [objGet?_append_right [("observations", Json.arr [])] ht]
      rfl
    simp [parseLine, pyContains, hkey, hob, getStrField_str hn2, getStrField_none ht2]
    rfl
  · have ht2 : objGet? fs "entity_type" = none := objGet?_none_of_not_hasKey ht
    simp [parseLine, pyContains, hkey, hob, getStrField_str hn, getStrField_none ht2]
    rfl

theorem parseLine_rel_missing_to {fs : List (String × Json)} {f : String}
    (hname : objHasKey fs "name" = false)
    (hf : objGet? fs "from_entity" = some (Json.str f))
    (hto : objHasKey fs "to_entity" = false) :
    parseLine (Json.obj fs) = Except.error PyErr.keyError := by
  have hfrom : objHasKey fs "from_entity" = true := objHasKey_of_objGet? hf
  simp [parseLine, pyContains, hname, hfrom, getStrField_str hf,
    getStrField_none (objGet?_none_of_not_hasKey hto)]
  rfl

theorem parseLine_rel_missing_rt {fs : List (String × Json)} {f t : String}
    (hname : objHasKey fs "name" = false)
    (hf : objGet? fs "from_entity" = some (Json.str f))
    (ht : objGet? fs "to_entity" = some (Json.str t))
    (hrt : objHasKey fs "relation_type" = false) :
    parseLine (Json.obj fs) = Except.error PyErr.keyError := by
  have hfrom : objHasKey fs "from_entity" = true := objHasKey_of_objGet? hf
  simp [parseLine, pyContains, hname, hfrom, getStrField_str hf, getStrField_str ht,
    getStrField_none (objGet?_none_of_not_hasKey hrt)]
  rfl

/-! ### From record shapes to `parseLine` outcomes -/

theorem isStrVal?_iff {o : Option Json} : isStrVal? o = true ↔ ∃ s, o = some (Json.str s) := by
  cases o with
  | none => simp [isStrVal?]
  | some j => cases j <;> simp [isStrVal?]

theorem bool_not_true_eq_false {b : Bool} (h : (!b) = true) : b = false := by
  revert h
  cases b <;> simp

theorem parseLine_of_entRecordOf? {j : Json} {e : Entity} (h : entRecordOf? j = some e) :
    parseLine j = Except.ok (some (Parsed.ent e)) := by
  cases j with
  | obj fs =>
      simp only [entRecordOf?] at h
      cases hn : objGet? fs "name" with
      | none => rw [hn] at h; cases h
      | some jn =>
          rw [hn] at h
          cases jn with
          | str n =>
              cases ht : objGet? fs "entity_type" with
              | none => rw [ht] at h; cases h
              | some jt =>
                  rw [ht] at h
                  cases jt with
                  | str t =>
                      cases ho : obsOf? fs with
                      | none => rw [ho] at h; cases h
                      | some obs =>
                          rw [ho] at h
                          cases h
                          unfold obsOf? at ho
                          cases hov : objGet? fs "observations" with
                          | none =>
                              rw [hov] at ho
                              cases ho
                              exact parseLine_ent_defaulted hn ht
                                (objHasKey_false_of_objGet?_none hov)
                          | some jv =>
                              rw [hov] at ho
                              cases jv with
                              | arr es => exact parseLine_ent_present hn ht hov ho
                              | obj fs2 => cases ho
                              | str s2 => cases ho
                              | num x2 => cases ho
                              | bool b2 => cases ho
                              | null => cases ho
                  | obj fs2 => cases h
                  | arr es2 => cases h
                  | num x2 => cases h
                  | bool b2 => cases h
                  | null => cases h
          | obj fs2 => cases h
          | arr es2 => cases h
          | num x2 => cases h
          | bool b2 => cases h
          | null => cases h
  | str s => cases h
  | arr es => cases h
  | num x => cases h
  | bool b => cases h
  | null => cases h

theorem parseLine_of_relRecordOf? {j : Json} {r : Relation} (h : relRecordOf? j = some r) :
    parseLine j = Except.ok (some (Parsed.rel r)) := by
  cases j with
  | obj fs =>
      simp only [relRecordOf?] at h
      cases hname : objHasKey fs "name"
      · rw [hname] at h
        rw [if_neg (by simp)] at h
        cases hf : objGet? fs "from_entity" with
        | none => rw [hf] at h; cases h
        | some jf =>
            rw [hf] at h
            cases jf with
            | str f =>
                cases hto : objGet? fs "to_entity" with
                | none => rw [hto] at h; cases h
                | some jt =>
                    rw [hto] at h
                    cases jt with
                    | str t =>
                        cases hrt : objGet? fs "relation_type" with
                        | none => rw [hrt] at h; cases h
                        | some jr =>
                            rw [hrt] at h
                            cases jr with
                            | str rt =>
                                cases h
                                exact parseLine_rel_present hname hf hto hrt
                            | obj fs2 => cases h
                            | arr es2 => cases h
                            | num x2 => cases h
                            | bool b2 => cases h
                            | null => cases h
                    | obj fs2 => cases h
                    | arr es2 => cases h
                    | num x2 => cases h
                    | bool b2 => cases h
                    | null => cases h
            | obj fs2 => cases h
            | arr es2 => cases h
            | num x2 => cases h
            | bool b2 => cases h
            | null => cases h
      · rw [hname] at h
        rw [if_pos rfl] at h
        cases h
  | str s => cases h
  | arr es => cases h
  | num x => cases h
  | bool b => cases h
  | null => cases h

theorem parseLine_of_entMissingType {j : Json} (h : isEntMissingType j = true) :
    parseLine j = Except.error PyErr.keyError := by
  cases j with
  | obj fs =>
      simp only [isEntMissingType] at h
      rw [Bool.and_eq_true] at h
      obtain ⟨h1, h2⟩ := h
      obtain ⟨n, hn⟩ := isStrVal?_iff.mp h1
      exact parseLine_ent_missing_type hn (bool_not_true_eq_false h2)
  | str s => cases h
  | arr es => cases h
  | num x => cases h
  | bool b => cases h
  | null => cases h

theorem parseLine_of_relMissingField {j : Json} (h : isRelMissingField j = true) :
    parseLine j = Except.error PyErr.keyError := by
  cases j with
  | obj fs =>
      simp only [isRelMissingField] at h
      rw [Bool.and_eq_true, Bool.and_eq_true] at h
      obtain ⟨⟨ha, hb⟩, hc⟩ := h
      have hname := bool_not_true_eq_false ha
      obtain ⟨f, hf⟩ := isStrVal?_iff.mp hb
      rw [Bool.or_eq_true] at hc
      rcases hc with hto | hc2
      · exact parseLine_rel_missing_to hname hf (bool_not_true_eq_false hto)
      · rw [Bool.and_eq_true] at hc2
        obtain ⟨hty, hrt⟩ := hc2
        obtain ⟨t, ht⟩ := isStrVal?_iff.mp hty
        exact parseLine_rel_missing_rt hname hf ht (bool_not_true_eq_false hrt)
  | str s => cases h
  | arr es => cases h
  | num x => cases h
  | bool b => cases h
  | null => cases h

/-! ### Record extractors on corrupt shapes -/

theorem entRecordOf?_none_of_noName {fs : List (String × Json)}
    (h : objHasKey fs "name" = false) : entRecordOf? (Json.obj fs) = none := by
  simp only [entRecordOf?]
  rw [objGet?_none_of_not_hasKey h]

theorem relRecordOf?_none_of_hasName {fs : List (String × Json)}
    (h : objHasKey fs "name" = true) : relRecordOf? (Json.obj fs) = none := by
  simp only [relRecordOf?]
  rw [if_pos h]

theorem entRecordOf?_none_of_missingType {j : Json} (h : isEntMissingType j = true) :
    entRecordOf? j = none := by
  cases j with
  | obj fs =>
      simp only [isEntMissingType] at h
      rw [Bool.and_eq_true] at h
      obtain ⟨h1, h2⟩ := h
      obtain ⟨n, hn⟩ := isStrVal?_iff.mp h1
      simp only [entRecordOf?]
      rw [hn, objGet?_none_of_not_hasKey (bool_not_true_eq_false h2)]
  | str s => rfl
  | arr es => rfl
  | num x => rfl
  | bool b => rfl
  | null => rfl

theorem relRecordOf?_none_of_missingType {j : Json} (h : isEntMissingType j = true) :
    relRecordOf? j = none := by
  cases j with
  | obj fs =>
      simp only [isEntMissingType] at h
      rw [Bool.and_eq_true] at h
      obtain ⟨h1, _⟩ := h
      obtain ⟨n, hn⟩ := isStrVal?_iff.mp h1
      exact relRecordOf?_none_of_hasName (objHasKey_of_objGet? hn)
  | str s => rfl
  | arr es => rfl
  | num x => rfl
  | bool b => rfl
  | null => rfl

theorem entRecordOf?_none_of_relMissingField {j : Json} (h : isRelMissingField j = true) :
    entRecordOf? j = none := by
  cases j with
  | obj fs =>
      simp only [isRelMissingField] at h
      rw [Bool.and_eq_true, Bool.and_eq_true] at h
      obtain ⟨⟨ha, _⟩, _⟩ := h
      exact entRecordOf?_none_of_noName (bool_not_true_eq_false ha)
  | str s => rfl
  | arr es => rfl
  | num x => rfl
  | bool b => rfl
  | null => rfl

theorem relRecordOf?_none_of_relMissingField {j : Json} (h : isRelMissingField j = true) :
    relRecordOf? j = none := by
  cases j with
  | obj fs =>
      simp only [isRelMissingField] at h
      rw [Bool.and_eq_true, Bool.and_eq_true] at h
      obtain ⟨⟨ha, hb⟩, hc⟩ := h
      have hname := bool_not_true_eq_false ha
      obtain ⟨f, hf⟩ := isStrVal?_iff.mp hb
      simp only [relRecordOf?]
      rw [if_neg (by simp [hname]), hf]
      rw [Bool.or_eq_true] at hc
      rcases hc with hto | hc2
      · rw [objGet?_none_of_not_hasKey (bool_not_true_eq_false hto)]
      · rw [Bool.and_eq_true] at hc2
        obtain ⟨hty, hrt⟩ := hc2
        obtain ⟨t, ht⟩ := isStrVal?_iff.mp hty
        rw [ht, objGet?_none_of_not_hasKey (bool_not_true_eq_false hrt)]
  | str s => rfl
  | arr es => rfl
  | num x => rfl
  | bool b => rfl
  | null => rfl

theorem entRecordOf?_none_of_relRecordOf?_some {j : Json} {r : Relation}
    (h : relRecordOf? j = some r) : entRecordOf? j = none := by
  cases j with
  | obj fs =>
      simp only [relRecordOf?] at h
      cases hname : objHasKey fs "name"
      · exact entRecordOf?_none_of_noName hname
      · rw [hname, if_pos rfl] at h
        cases h
  | str s => rfl
  | arr es => rfl
  | num x => rfl
  | bool b => rfl
  | null => rfl

/-! ### The loading loop -/

theorem init_json_step (st : Store) (j : Json) (ls : List Line) :
    initialize_graph_from_data st (.json j :: ls)
      = match parseLine j with
        | .ok none => initialize_graph_from_data st ls
        | .ok (some p) => initialize_graph_from_data (applyParsed st p) ls
        | .error .keyError => initialize_graph_from_data st ls
        | .error e => .error e := rfl

theorem goodLoadStep_ent {st : Store} {j : Json} {e : Entity}
    (h : entRecordOf? j = some e) :
    goodLoadStep st (.json j) = applyParsed st (.ent e) := by
  simp only [goodLoadStep]
  rw [h]
  rfl

theorem goodLoadStep_rel {st : Store} {j : Json} {r : Relation}
    (he : entRecordOf? j = none) (h : relRecordOf? j = some r) :
    goodLoadStep st (.json j) = applyParsed st (.rel r) := by
  simp only [goodLoadStep]
  rw [he, h]
  rfl

theorem goodLoadStep_skip {st : Store} {j : Json}
    (he : entRecordOf? j = none) (hr : relRecordOf? j = none) :
    goodLoadStep st (.json j) = st := by
  simp only [goodLoadStep]
  rw [he, hr]

/-- C7: when every line of the content is blank, unparsable JSON, a
well-formed entity or relation record, an entity record missing
`entity_type`, or a relation record missing `to_entity` or
`relation_type`, loading does not abort — each corrupt line is skipped
(caught `JSONDecodeError` or `KeyError`) and every well-formed record is
still loaded, in order (`goodLoad`). -/
theorem initialize_tolerates (lines : List Line)
    (h : lines.all toleratedLine = true) :
    ∀ st : Store,
      initialize_graph_from_data st lines = Except.ok (goodLoad st lines) := by
  induction lines with
  | nil => intro st; rfl
  | cons l ls ih =>
      rw [List.all_cons, Bool.and_eq_true] at h
      obtain ⟨hl, hls⟩ := h
      intro st
      cases l with
      | blank => exact ih hls st
      | invalid => exact ih hls st
      | json j =>
          unfold toleratedLine at hl
          rw [Bool.or_eq_true, Bool.or_eq_true, Bool.or_eq_true] at hl
          have hgl : goodLoad st (.json j :: ls) = goodLoad (goodLoadStep st (.json j)) ls :=
            rfl
          rcases hl with ((he | hr) | hmt) | hmf
          · obtain ⟨e, he⟩ := Option.isSome_iff_exists.mp he
            rw [init_json_step, parseLine_of_entRecordOf? he, hgl, goodLoadStep_ent he]
            exact ih hls (applyParsed st (.ent e))
          · obtain ⟨r, hr⟩ := Option.isSome_iff_exists.mp hr
            have he := entRecordOf?_none_of_relRecordOf?_some hr
            rw [init_json_step, parseLine_of_relRecordOf? hr, hgl, goodLoadStep_rel he hr]
            exact ih hls (applyParsed st (.rel r))
          · rw [init_json_step, parseLine_of_entMissingType hmt, hgl,
              goodLoadStep_skip (entRecordOf?_none_of_missingType hmt)
                (relRecordOf?_none_of_missingType hmt)]
            exact ih hls st
          · rw [init_json_step, parseLine_of_relMissingField hmf, hgl,
              goodLoadStep_skip (entRecordOf?_none_of_relMissingField hmf)
                (relRecordOf?_none_of_relMissingField hmf)]
            exact ih hls st

/-- Witness content for the load-tolerance theorem: a good entity line, an
unparsable line, a blank line, an entity line missing `entity_type`, a
good relation line, and a relation line missing `to_entity`. -/
def linesW : List Line :=
  [entLineOf ⟨"a", "t", ["o"]⟩,
   Line.invalid,
   Line.blank,
   Line.json (Json.obj [("name", Json.str "x")]),
   relLineOf ⟨"a", "a", "r"⟩,
   Line.json (Json.obj [("from_entity", Json.str "q")])]

/-- Witness for the C7 theorem at the concrete content. -/
theorem initialize_tolerates_witness :
    initialize_graph_from_data emptyStore linesW = Except.ok (goodLoad emptyStore linesW)
      ∧ goodLoad emptyStore linesW = ⟨[("a", ⟨"a", "t", ["o"]⟩)], [⟨"a", "a", "r"⟩]⟩ :=
  ⟨initialize_tolerates linesW (by decide) emptyStore, by decide⟩

/-! ### C1: save/load round-trip -/

theorem init_append (a b : List Line) :
    ∀ st : Store,
      initialize_graph_from_data st (a ++ b)
        = (initialize_graph_from_data st a).bind
            (fun s => initialize_graph_from_data s b) := by
  induction a with
  | nil => intro st; rfl
  | cons l a ih =>
      intro st
      cases l with
      | blank => exact ih st
      | invalid => exact ih st
      | json j =>
          rw [List.cons_append, init_json_step, init_json_step]
          cases hp : parseLine j with
          | ok o =>
              cases o with
              | none => exact ih st
              | some p => exact ih (applyParsed st p)
          | error e =>
              cases e with
              | keyError => exact ih st
              | typeError => rfl
              | unmodeled => rfl

theorem init_json_step_some (st : Store) (ls : List Line) {j : Json} {p : Parsed}
    (h : parseLine j = Except.ok (some p)) :
    initialize_graph_from_data st (.json j :: ls)
      = initialize_graph_from_data (applyParsed st p) ls := by
  rw [init_json_step, h]

theorem mapM_asStr_map (l : List String) : (l.map Json.str).mapM asStr? = some l := by
  induction l with
  | nil => rfl
  | cons a l ih =>
      rw [List.map_cons, List.mapM_cons, ih]
      rfl

theorem parseLine_entLineOf (e : Entity) :
    parseLine (Json.obj
      [("name", Json.str e.name),
       ("entity_type", Json.str e.entity_type),
       ("observations", Json.arr (e.observations.map Json.str))])
      = Except.ok (some (Parsed.ent e)) :=
  parseLine_ent_present rfl rfl rfl (mapM_asStr_map e.observations)

theorem parseLine_relLineOf (r : Relation) :
    parseLine (Json.obj
      [("from_entity", Json.str r.from_entity),
       ("to_entity", Json.str r.to_entity),
       ("relation_type", Json.str r.relation_type)])
      = Except.ok (some (Parsed.rel r)) :=
  parseLine_rel_present rfl rfl rfl rfl

theorem dictContains_false_of_not_mem {d : EntityDict} {k : String}
    (h : k ∉ d.map Prod.fst) : dictContains d k = false := by
  cases hc : dictContains d k
  · rfl
  · rcases dictContains_iff.mp hc with ⟨p, hp, hk⟩
    exact absurd (List.mem_map.mpr ⟨p, hp, hk⟩) h

theorem init_ent_lines (ents : EntityDict) :
    ∀ (d : EntityDict) (rs : List Relation),
      (∀ p ∈ ents, p.2.name = p.1) →
      ((d ++ ents).map Prod.fst).Nodup →
      initialize_graph_from_data ⟨d, rs⟩ (ents.map (fun p => entLineOf p.2))
        = Except.ok ⟨d ++ ents, rs⟩ := by
  induction ents with
  | nil =>
      intro d rs _ _
      rw [List.append_nil]
      rfl
  | cons p ents ih =>
      intro d rs hname hnodup
      rw [List.map_cons]
      rw [show entLineOf p.2 = Line.json (Json.obj
        [("name", Json.str p.2.name),
         ("entity_type", Json.str p.2.entity_type),
         ("observations", Json.arr (p.2.observations.map Json.str))]) from rfl]
      rw [init_json_step_some _ _ (parseLine_entLineOf p.2)]
      have hfresh : dictContains d p.2.name = false := by
        apply dictContains_false_of_not_mem
        rw [hname p (by simp)]
        rw [List.map_append, List.nodup_append] at hnodup
        intro hmem
        exact hnodup.2.2 hmem (by simp)
      have happly : applyParsed ⟨d, rs⟩ (Parsed.ent p.2) = ⟨d ++ [p], rs⟩ := by
        show (⟨dictInsert d p.2.name p.2, rs⟩ : Store) = _
        rw [dictInsert_of_not_contains hfresh, hname p (by simp)]
      rw [happly, ih (d ++ [p]) rs
        (fun q hq => hname q (List.mem_cons_of_mem p hq))
        (by rw [List.append_assoc]; simpa using hnodup)]
      rw [List.append_assoc]
      rfl

theorem init_rel_lines (rl : List Relation) :
    ∀ (d : EntityDict) (rs : List Relation),
      initialize_graph_from_data ⟨d, rs⟩ (rl.map relLineOf)
        = Except.ok ⟨d, rs ++ rl⟩ := by
  induction rl with
  | nil =>
      intro d rs
      rw [List.append_nil]
      rfl
  | cons r rl ih =>
      intro d rs
      rw [List.map_cons]
      rw [show relLineOf r = Line.json (Json.obj
        [("from_entity", Json.str r.from_entity),
         ("to_entity", Json.str r.to_entity),
         ("relation_type", Json.str r.relation_type)]) from rfl]
      rw [init_json_step_some _ _ (parseLine_relLineOf r)]
      rw [show applyParsed ⟨d, rs⟩ (Parsed.rel r) = ⟨d, rs ++ [r]⟩ from rfl]
      rw [ih d (rs ++ [r]), List.append_assoc]
      rfl

/-- C1: round-trip through persistence.  For every store reachable by the
creation operations (entries keyed by their entity's name, no duplicate
keys — both invariants hold for every Python dict built by the code),
saving with `_save_graph` and loading the written lines into a fresh
empty store reproduces the store exactly: the entity map is equal key by
key and value by value, and the relation list is equal with order
preserved. -/
theorem save_load_roundtrip (st : Store)
    (hname : ∀ p ∈ st.entities, p.2.name = p.1)
    (hnodup : (st.entities.map Prod.fst).Nodup) :
    initialize_graph_from_data emptyStore (_save_graph st) = Except.ok st := by
  unfold _save_graph
  rw [init_append]
  rw [show (emptyStore : Store) = ⟨[], []⟩ from rfl]
  rw [init_ent_lines st.entities [] [] hname (by simpa using hnodup)]
  show initialize_graph_from_data ⟨[] ++ st.entities, []⟩ (st.relations.map relLineOf)
    = Except.ok st
  rw [List.nil_append, init_rel_lines st.relations st.entities [], List.nil_append]

/-- Witness for the C1 theorem at a concrete two-entity one-relation store. -/
theorem save_load_roundtrip_witness :
    initialize_graph_from_data emptyStore (_save_graph stRT) = Except.ok stRT :=
  save_load_roundtrip stRT (by decide) (by decide)

end Ontology
